import Mathlib

/-!
Formal model of the Loan-Payment-Tracker repository.

The development gives a shallow embedding of the calculation engine of the
repository (files build-amortization-table.py and payment-tracker.py) and
proves or refutes the specification claims about it.

Modelling conventions:
* Python floats are modelled by exact rationals; the Python builtin
  round(x, n) is modelled by roundTo n, built from the Mathlib round
  function.  Python rounds ties to even while Mathlib rounds ties up; no
  statement in this development depends on a tie.
* Python datetime values are modelled by a calendar date structure; all
  datetimes handled by the scanned loop carry the same 12:00 time of day
  (both endpoints receive the identical 7.5 day offset and the loop steps
  in whole days), so the time component cancels and dates suffice.
* Python dictionaries keyed by contiguous periods 1..T are modelled by
  lists, period t stored at index t - 1.  A KeyError or TypeError abort is
  modelled by an Option-valued result being none.
-/

/-- Model of the Python builtin round(x, n) on exact rationals. -/
def roundTo (n : ℕ) (q : ℚ) : ℚ := (round (q * (10 : ℚ) ^ n) : ℚ) / (10 : ℚ) ^ n

/-! ### Calendar model (Python datetime / dateutil.relativedelta) -/

/-- Gregorian leap year rule, as implemented by Python datetime. -/
def isLeap (y : ℕ) : Prop := (y % 4 = 0 ∧ y % 100 ≠ 0) ∨ y % 400 = 0

instance (y : ℕ) : Decidable (isLeap y) := by unfold isLeap; infer_instance

/-- Number of days of month m of year y (months are 1-based). -/
def daysInMonth (y m : ℕ) : ℕ :=
  if m = 2 then (if isLeap y then 29 else 28)
  else if m = 4 ∨ m = 6 ∨ m = 9 ∨ m = 11 then 30
  else 31

/-- A calendar date; valid dates (see CalDate.Valid) model Python datetime dates. -/
structure CalDate where
  year : ℕ
  month : ℕ
  day : ℕ
deriving DecidableEq

/-- Validity of a calendar date.  Python datetime requires year at least 1. -/
def CalDate.Valid (D : CalDate) : Prop :=
  1 ≤ D.year ∧ 1 ≤ D.month ∧ D.month ≤ 12 ∧ 1 ≤ D.day ∧ D.day ≤ daysInMonth D.year D.month

instance (D : CalDate) : Decidable D.Valid := by unfold CalDate.Valid; infer_instance

/-- The next calendar day (Python: date + timedelta(days=1)). -/
def succDate (D : CalDate) : CalDate :=
  if D.day < daysInMonth D.year D.month then ⟨D.year, D.month, D.day + 1⟩
  else if D.month < 12 then ⟨D.year, D.month + 1, 1⟩
  else ⟨D.year + 1, 1, 1⟩

/-- Seven days later (Python: date + timedelta(days=7, hours=12); the shared
    12:00 component of both loop endpoints cancels, see the header comment). -/
def addDays7 (D : CalDate) : CalDate :=
  if D.day + 7 ≤ daysInMonth D.year D.month then ⟨D.year, D.month, D.day + 7⟩
  else if D.month < 12 then ⟨D.year, D.month + 1, D.day + 7 - daysInMonth D.year D.month⟩
  else ⟨D.year + 1, 1, D.day + 7 - 31⟩

/-- Month arithmetic of dateutil relativedelta(months=k): advance the month
    index and clamp the day to the length of the target month. -/
def addMonths (D : CalDate) (k : ℕ) : CalDate :=
  let t := (D.month - 1) + k
  let y := D.year + t / 12
  let m := t % 12 + 1
  ⟨y, m, min D.day (daysInMonth y m)⟩

/-- Number of leap years strictly before year y (for y at least 1). -/
def leapsBefore (y : ℕ) : ℕ := (y - 1) / 4 + (y - 1) / 400 - (y - 1) / 100

/-- Days of year y elapsed strictly before month m. -/
def daysBeforeMonth (y m : ℕ) : ℕ :=
  let l : ℕ := if isLeap y then 1 else 0
  if m ≤ 1 then 0
  else if m = 2 then 31
  else if m = 3 then 59 + l
  else if m = 4 then 90 + l
  else if m = 5 then 120 + l
  else if m = 6 then 151 + l
  else if m = 7 then 181 + l
  else if m = 8 then 212 + l
  else if m = 9 then 243 + l
  else if m = 10 then 273 + l
  else if m = 11 then 304 + l
  else if m = 12 then 334 + l
  else 365 + l

/-- Absolute day number of a date; the semantic anchor of the calendar model.
    Chronological comparison of Python datetimes is comparison of toDays. -/
def toDays (D : CalDate) : ℕ :=
  365 * (D.year - 1) + leapsBefore D.year + daysBeforeMonth D.year D.month + D.day

/-- Linear month index, 12 * year + month. -/
def monthIndex (D : CalDate) : ℕ := 12 * D.year + D.month

/-- The scanning loop of list_due_dates: step one day at a time from start to
    stop inclusive and emit every date whose day of month is 10.  The fuel
    argument dominates the number of loop iterations. -/
def scanLoop : ℕ → CalDate → CalDate → List CalDate
  | 0, _, _ => []
  | fuel + 1, start, stop =>
      if toDays start ≤ toDays stop then
        (if start.day = 10 then [start] else []) ++ scanLoop fuel (succDate start) stop
      else []

/-- Model of list_due_dates (build-amortization-table.py, lines 157-171). -/
def list_due_dates (startDate endDate : CalDate) : List CalDate :=
  let a := addDays7 startDate
  let b := addDays7 endDate
  scanLoop (toDays b + 1 - toDays a) a b

/-! ### Payment policy (payment-tracker.py, apply_payment) -/

/-- One row of the amortization table as parsed back from the schedule CSV
    (payment-tracker.py, read_amortization_table). -/
structure AmortRow where
  dueDate : CalDate
  startingBalance : ℚ
  amountDue : ℚ
  principal : ℚ
  interest : ℚ
  endingBalance : ℚ
deriving DecidableEq

/-- The computed fields of the ledger row produced by apply_payment. -/
structure PaymentResult where
  endBalance : Option ℚ
  daysLate : ℤ
  lateFee : ℚ
deriving DecidableEq

/-- Model of apply_payment (payment-tracker.py, lines 55-114).  The three
    balance branches are sequential non-exclusive if statements in the
    source; each later branch overwrites the earlier result when its
    condition holds.  An end balance of none models the source leaving the
    local variable unassigned (impossible, as proved below). -/
def apply_payment (amountReceived : ℚ) (receivedDate : CalDate) (row : AmortRow) :
    PaymentResult :=
  let eb1 : Option ℚ :=
    if amountReceived = row.amountDue then some row.endingBalance else none
  let eb2 : Option ℚ :=
    if amountReceived > row.amountDue ∨ amountReceived > row.interest then
      some (row.startingBalance - (amountReceived - row.interest))
    else eb1
  let eb3 : Option ℚ :=
    if amountReceived < row.amountDue then
      (if amountReceived = row.interest then some row.startingBalance
       else if amountReceived - row.interest > 0 then
         some (row.startingBalance - (amountReceived - row.interest))
       else some row.startingBalance)
    else eb2
  let dl : ℤ := (toDays receivedDate : ℤ) - (toDays row.dueDate : ℤ)
  if 0 < dl then
    { endBalance := eb3, daysLate := dl,
      lateFee := roundTo 2 (row.principal * ((18 : ℚ) / 365) * (dl : ℚ)) }
  else
    { endBalance := eb3, daysLate := 0, lateFee := 0 }

/-! ### Schedule builder (build-amortization-table.py, calculate_amortization) -/

/-- Level annuity payment, numpy_financial pmt(rate, nper, -P). -/
def pmt (r : ℚ) (n : ℕ) (P : ℚ) : ℚ :=
  if r = 0 then P / n else P * (r * (1 + r) ^ n) / ((1 + r) ^ n - 1)

/-- Exact remaining balance after t level payments. -/
def balanceAfter (r : ℚ) (n : ℕ) (P : ℚ) : ℕ → ℚ
  | 0 => P
  | t + 1 => balanceAfter r n P t * (1 + r) - pmt r n P

/-- Interest part of payment t, numpy_financial ipmt(rate, t, nper, -P). -/
def ipmt (r : ℚ) (n : ℕ) (P : ℚ) (t : ℕ) : ℚ := r * balanceAfter r n P (t - 1)

/-- Principal part of payment t, numpy_financial ppmt(rate, t, nper, -P). -/
def ppmt (r : ℚ) (n : ℕ) (P : ℚ) (t : ℕ) : ℚ := pmt r n P - ipmt r n P t

/-- One period of the amortization dictionary.  Option fields model entries
    the source initializes to None. -/
structure Entry where
  startBalance : Option ℚ
  dueDate : CalDate
  amountDue : ℚ
  extraPayment : Option ℚ
  totalPayment : Option ℚ
  principalDue : ℚ
  interestDue : ℚ
  endBalance : Option ℚ
deriving DecidableEq

/-- First pass of calculate_amortization (lines 109-132): principal and
    interest per period; start balance only filled for period 1. -/
def buildEntries (dates : List CalDate) (P r : ℚ) (T : ℕ) : List Entry :=
  (List.range T).map (fun i =>
    let t := i + 1
    { startBalance := if t = 1 then some P else none
      dueDate := dates.getD (t - 1) ⟨1, 1, 1⟩
      amountDue := roundTo 2 (pmt r T P)
      extraPayment := none
      totalPayment := none
      principalDue := roundTo 3 (ppmt r T P t)
      interestDue := roundTo 3 (ipmt r T P t)
      endBalance := none
      : Entry })

/-- Second pass of calculate_amortization (lines 134-152): the running
    balance loop, carried left to right; prevEnd is the end balance of the
    period processed just before.  In the none fallback of the match the
    source would look up period 0 and raise; it is unreachable for the
    lists produced by buildEntries because period 1 carries its start
    balance. -/
def runningBalance (P : ℚ) : Option ℚ → List Entry → List Entry
  | _, [] => []
  | prevEnd, e :: rest =>
      let e1 :=
        if e.startBalance = some P ∧ e.endBalance = none then
          { e with endBalance := some (roundTo 2 (P - e.principalDue)) }
        else e
      let e2 :=
        if e1.startBalance = none ∧ e1.endBalance = none then
          match prevEnd with
          | some pe =>
              { e1 with
                startBalance := some pe
                endBalance := some (if pe < e1.amountDue
                  then roundTo 1 (pe - e1.principalDue)
                  else roundTo 2 (pe - e1.principalDue)) }
          | none => e1
        else e1
      e2 :: runningBalance P e2.endBalance rest

/-- Model of calculate_amortization (lines 100-154); r is the annual rate. -/
def calculate_amortization (originationDate : CalDate) (P r : ℚ) (T : ℕ) : List Entry :=
  let monthlyRate := r / 12
  let paymentsStart := addMonths originationDate 1
  let dates := list_due_dates paymentsStart (addMonths paymentsStart T)
  runningBalance P none (buildEntries dates P monthlyRate T)

/-! ### Balloon adjustment (build-amortization-table.py, apply_balloon_payment) -/

/-- Dictionary lookup amortization_json[k] followed by reading the Start
    Balance field; none models a KeyError (k outside 1..T) or a TypeError
    from arithmetic on a None field. -/
def prevStartLookup (sched : List Entry) (k : ℤ) : Option ℚ :=
  if 1 ≤ k then (sched[(k - 1).toNat]?).bind (fun e => e.startBalance) else none

/-- Body of the balloon loop for period m.  The lookup in the m = b branch
    reads the original start balance of period b - 1; the loop only changed
    the extra payment of the periods before b, never their start balance,
    so reading the unmodified schedule is faithful. -/
def balloonStep (sched : List Entry) (b m : ℤ) (e : Entry) : Option Entry :=
  if m < b then some { e with extraPayment := some 0 }
  else if m = b then
    match prevStartLookup sched (m - 1) with
    | none => none
    | some sb =>
        let payoff := sb + e.interestDue
        let extra := payoff - e.amountDue
        some { e with
          extraPayment := some (roundTo 2 extra)
          endBalance := some (roundTo 2 (payoff - e.amountDue - extra)) }
  else
    some { e with
      startBalance := some 0
      amountDue := 0
      extraPayment := some 0
      totalPayment := some 0
      principalDue := 0
      interestDue := 0
      endBalance := some 0 }

/-- The balloon loop over periods m, m+1, ...; none as soon as one step
    aborts (the Python exception ends the run, no table is exported). -/
def balloonGo (sched : List Entry) (b : ℤ) : ℤ → List Entry → Option (List Entry)
  | _, [] => some []
  | m, e :: rest =>
      match balloonStep sched b m e, balloonGo sched b (m + 1) rest with
      | some e2, some rest2 => some (e2 :: rest2)
      | _, _ => none

/-- Model of apply_balloon_payment (lines 74-97). -/
def apply_balloon_payment (sched : List Entry) (b : ℤ) : Option (List Entry) :=
  balloonGo sched b 1 sched

/-! ### Rounding lemmas -/

lemma roundQ_mono {a b : ℚ} (h : a ≤ b) : round a ≤ round b := by
  rw [round_eq, round_eq]
  exact Int.floor_le_floor (by linarith)

lemma roundTo_lt {n : ℕ} {a b : ℚ} (h : a + 1 / (10 : ℚ) ^ n ≤ b) :
    roundTo n a < roundTo n b := by
  unfold roundTo
  have hpow : (0 : ℚ) < (10 : ℚ) ^ n := by positivity
  have hmul : a * (10 : ℚ) ^ n + 1 ≤ b * (10 : ℚ) ^ n := by
    have := mul_le_mul_of_nonneg_right h (le_of_lt hpow)
    calc a * (10 : ℚ) ^ n + 1 = (a + 1 / (10 : ℚ) ^ n) * (10 : ℚ) ^ n := by
          field_simp
      _ ≤ b * (10 : ℚ) ^ n := this
  have h1 : round (a * (10 : ℚ) ^ n) + 1 ≤ round (b * (10 : ℚ) ^ n) := by
    have := roundQ_mono hmul
    rwa [show a * (10 : ℚ) ^ n + 1 = a * (10 : ℚ) ^ n + (1 : ℚ) by norm_num,
      round_add_one] at this
  have hc : ((round (a * (10 : ℚ) ^ n) : ℚ)) < ((round (b * (10 : ℚ) ^ n) : ℚ)) := by
    exact_mod_cast Int.lt_of_add_one_le h1
  gcongr

lemma roundTo_pos {n : ℕ} {q : ℚ} (h : 1 / 2 ≤ q * (10 : ℚ) ^ n) :
    0 < roundTo n q := by
  unfold roundTo
  have hpow : (0 : ℚ) < (10 : ℚ) ^ n := by positivity
  have h1 : 1 ≤ round (q * (10 : ℚ) ^ n) := by
    rw [round_eq]
    rw [Int.le_floor]
    push_cast
    linarith
  have : (0 : ℚ) < (round (q * (10 : ℚ) ^ n) : ℚ) := by exact_mod_cast h1
  positivity

/-! ### Claim theorems about the payment policy -/

/-- C1 (amended): with days late = received date minus due date in whole days,
    a late payment carries late fee round(principal due * (18 / 365) * days
    late, 2) - the source rate constant is 18, not 0.18 - and an on-time or
    early payment carries late fee 0 with days late clamped to 0; when the
    principal due is at least 1, the late fee of a late payment is strictly
    positive and strictly increasing in days late. -/
theorem C1_late_fee_amended (row : AmortRow) (amt : ℚ) (rd0 rd1 rd2 : CalDate)
    (h0 : toDays rd0 ≤ toDays row.dueDate)
    (h1 : toDays row.dueDate < toDays rd1)
    (h2 : toDays rd1 < toDays rd2) :
    (apply_payment amt rd0 row).lateFee = 0 ∧
    (apply_payment amt rd0 row).daysLate = 0 ∧
    (apply_payment amt rd1 row).lateFee
      = roundTo 2 (row.principal * ((18 : ℚ) / 365)
          * (((toDays rd1 : ℤ) - (toDays row.dueDate : ℤ) : ℤ) : ℚ)) ∧
    (apply_payment amt rd1 row).daysLate
      = (toDays rd1 : ℤ) - (toDays row.dueDate : ℤ) ∧
    (1 ≤ row.principal →
      0 < (apply_payment amt rd1 row).lateFee ∧
      (apply_payment amt rd1 row).lateFee < (apply_payment amt rd2 row).lateFee) := by
  have hd0 : ¬ (0 : ℤ) < (toDays rd0 : ℤ) - (toDays row.dueDate : ℤ) := by
    simp only [not_lt, sub_nonpos]
    exact_mod_cast h0
  have hd1 : (0 : ℤ) < (toDays rd1 : ℤ) - (toDays row.dueDate : ℤ) := by
    simp only [sub_pos]
    exact_mod_cast h1
  have hd2 : (0 : ℤ) < (toDays rd2 : ℤ) - (toDays row.dueDate : ℤ) := by
    have : (toDays row.dueDate : ℤ) < (toDays rd2 : ℤ) := by exact_mod_cast h1.trans h2
    simp only [sub_pos]
    exact this
  refine ⟨?_, ?_, ?_, ?_, ?_⟩
  · simp only [apply_payment, if_neg hd0]
  · simp only [apply_payment, if_neg hd0]
  · simp only [apply_payment, if_pos hd1]
  · simp only [apply_payment, if_pos hd1]
  · intro hp
    have hq1 : (1 : ℚ) ≤ (((toDays rd1 : ℤ) - (toDays row.dueDate : ℤ) : ℤ) : ℚ) := by
      exact_mod_cast hd1
    have hq12 : (((toDays rd1 : ℤ) - (toDays row.dueDate : ℤ) : ℤ) : ℚ) + 1
        ≤ (((toDays rd2 : ℤ) - (toDays row.dueDate : ℤ) : ℤ) : ℚ) := by
      have : (toDays rd1 : ℤ) - (toDays row.dueDate : ℤ) + 1
          ≤ (toDays rd2 : ℤ) - (toDays row.dueDate : ℤ) := by omega
      exact_mod_cast this
    constructor
    · simp only [apply_payment, if_pos hd1]
      apply roundTo_pos
      have : (18 : ℚ) / 365 ≤ row.principal * ((18 : ℚ) / 365)
          * (((toDays rd1 : ℤ) - (toDays row.dueDate : ℤ) : ℤ) : ℚ) := by
        nlinarith
      calc (1 : ℚ) / 2 ≤ (18 : ℚ) / 365 * (10 : ℚ) ^ 2 := by norm_num
        _ ≤ _ := by nlinarith
    · simp only [apply_payment, if_pos hd1, if_pos hd2]
      apply roundTo_lt
      have hc : (0 : ℚ) < (18 : ℚ) / 365 := by norm_num
      nlinarith

/-- C1 counterexample: the source charges principal * (18 / 365) per day
    late, one hundred times the rate of the claim; moreover with a small
    positive principal due the fee of a one-day-late payment rounds to 0,
    refuting strict positivity for arbitrary positive principal. -/
theorem C1_counterexample :
    (apply_payment 0 ⟨2024, 1, 11⟩
        ⟨⟨2024, 1, 10⟩, 1000, 100, 100, 10, 905⟩).lateFee
      ≠ roundTo 2 ((100 : ℚ) * ((18 : ℚ) / 100 / 365) * 1) ∧
    (apply_payment 0 ⟨2024, 1, 11⟩
        ⟨⟨2024, 1, 10⟩, 1000, 100, 1 / 20, 10, 905⟩).lateFee = 0 := by
  have hd : ((toDays (⟨2024, 1, 11⟩ : CalDate) : ℤ)
      - (toDays (⟨2024, 1, 10⟩ : CalDate) : ℤ)) = 1 := by decide
  constructor
  · simp only [apply_payment, hd]
    norm_num [roundTo, round_eq]
  · simp only [apply_payment, hd]
    norm_num [roundTo, round_eq]

/-- C1 witness. -/
theorem C1_witness :
    (toDays (⟨2024, 1, 10⟩ : CalDate) ≤ toDays (⟨2024, 1, 10⟩ : CalDate)) ∧
    (toDays (⟨2024, 1, 10⟩ : CalDate) < toDays (⟨2024, 1, 11⟩ : CalDate)) ∧
    (toDays (⟨2024, 1, 11⟩ : CalDate) < toDays (⟨2024, 1, 12⟩ : CalDate)) ∧
    ((apply_payment 50 ⟨2024, 1, 10⟩
        ⟨⟨2024, 1, 10⟩, 1000, 100, 90, 10, 905⟩).lateFee = 0 ∧
     (apply_payment 50 ⟨2024, 1, 10⟩
        ⟨⟨2024, 1, 10⟩, 1000, 100, 90, 10, 905⟩).daysLate = 0 ∧
     (apply_payment 50 ⟨2024, 1, 11⟩
        ⟨⟨2024, 1, 10⟩, 1000, 100, 90, 10, 905⟩).lateFee
      = roundTo 2 ((90 : ℚ) * ((18 : ℚ) / 365)
          * (((toDays (⟨2024, 1, 11⟩ : CalDate) : ℤ)
              - (toDays (⟨2024, 1, 10⟩ : CalDate) : ℤ) : ℤ) : ℚ)) ∧
     (apply_payment 50 ⟨2024, 1, 11⟩
        ⟨⟨2024, 1, 10⟩, 1000, 100, 90, 10, 905⟩).daysLate
      = (toDays (⟨2024, 1, 11⟩ : CalDate) : ℤ)
          - (toDays (⟨2024, 1, 10⟩ : CalDate) : ℤ) ∧
     ((1 : ℚ) ≤ 90 →
      0 < (apply_payment 50 ⟨2024, 1, 11⟩
            ⟨⟨2024, 1, 10⟩, 1000, 100, 90, 10, 905⟩).lateFee ∧
      (apply_payment 50 ⟨2024, 1, 11⟩
            ⟨⟨2024, 1, 10⟩, 1000, 100, 90, 10, 905⟩).lateFee
        < (apply_payment 50 ⟨2024, 1, 12⟩
            ⟨⟨2024, 1, 10⟩, 1000, 100, 90, 10, 905⟩).lateFee)) :=
  ⟨by decide, by decide, by decide,
    C1_late_fee_amended ⟨⟨2024, 1, 10⟩, 1000, 100, 90, 10, 905⟩ 50
      ⟨2024, 1, 10⟩ ⟨2024, 1, 11⟩ ⟨2024, 1, 12⟩
      (by decide) (by decide) (by decide)⟩

/-- The ending balance computed by apply_payment, as the sequential override
    chain of the three source branches (last matching condition wins). -/
lemma apply_payment_endBalance_eq (amt : ℚ) (rd : CalDate) (row : AmortRow) :
    (apply_payment amt rd row).endBalance =
      if amt < row.amountDue then
        (if amt = row.interest then some row.startingBalance
         else if amt - row.interest > 0 then
           some (row.startingBalance - (amt - row.interest))
         else some row.startingBalance)
      else if amt > row.amountDue ∨ amt > row.interest then
        some (row.startingBalance - (amt - row.interest))
      else if amt = row.amountDue then some row.endingBalance
      else none := by
  by_cases hdl : 0 < (toDays rd : ℤ) - (toDays row.dueDate : ℤ) <;>
    simp only [apply_payment, hdl, if_true, if_false]

/-- C2 (amended): when the received amount equals the scheduled amount due,
    the ending balance is the precomputed schedule ending balance only when
    the amount due does not exceed the interest due; otherwise the
    overpayment branch overrides the exact-payment branch and the ending
    balance is starting balance minus (received amount minus interest due). -/
theorem C2_exact_payment_amended (row : AmortRow) (rd : CalDate) (amt : ℚ)
    (h : amt = row.amountDue) :
    (apply_payment amt rd row).endBalance
      = some (if row.interest < amt then row.startingBalance - (amt - row.interest)
              else row.endingBalance) := by
  have hlt : ¬ amt < row.amountDue := by rw [h]; exact lt_irrefl _
  have hgt : ¬ amt > row.amountDue := by rw [h]; exact lt_irrefl _
  rw [apply_payment_endBalance_eq, if_neg hlt]
  by_cases hi : row.interest < amt
  · rw [if_pos (Or.inr hi), if_pos hi]
  · rw [if_neg (by intro hd; rcases hd with hd | hd; exact hgt hd; exact hi hd),
      if_pos h, if_neg hi]

/-- C2 counterexample: a schedule row whose precomputed ending balance is 905
    while starting balance minus (amount due minus interest) is 910; an exact
    payment of the amount due yields 910, not the precomputed 905. -/
theorem C2_counterexample :
    (apply_payment 100 ⟨2024, 1, 10⟩
        ⟨⟨2024, 1, 10⟩, 1000, 100, 90, 10, 905⟩).endBalance
      ≠ some ((905 : ℚ)) := by
  rw [apply_payment_endBalance_eq]
  norm_num

/-- C2 witness. -/
theorem C2_witness :
    ((100 : ℚ) = (⟨⟨2024, 1, 10⟩, 1000, 100, 90, 10, 905⟩ : AmortRow).amountDue) ∧
    (apply_payment 100 ⟨2024, 1, 10⟩
        ⟨⟨2024, 1, 10⟩, 1000, 100, 90, 10, 905⟩).endBalance
      = some (if (⟨⟨2024, 1, 10⟩, 1000, 100, 90, 10, 905⟩ : AmortRow).interest < (100 : ℚ)
          then (⟨⟨2024, 1, 10⟩, 1000, 100, 90, 10, 905⟩ : AmortRow).startingBalance
            - ((100 : ℚ) - (⟨⟨2024, 1, 10⟩, 1000, 100, 90, 10, 905⟩ : AmortRow).interest)
          else (⟨⟨2024, 1, 10⟩, 1000, 100, 90, 10, 905⟩ : AmortRow).endingBalance) :=
  ⟨by norm_num,
   C2_exact_payment_amended ⟨⟨2024, 1, 10⟩, 1000, 100, 90, 10, 905⟩
     ⟨2024, 1, 10⟩ 100 (by norm_num)⟩

/-- C10: when the received amount lies strictly between the interest due and
    the scheduled amount due, the overpayment branch and the underpayment
    branch compute the same value, and the resulting ending balance is
    starting balance minus (received amount minus interest due). -/
theorem C10_middle_region (row : AmortRow) (rd : CalDate) (amt : ℚ)
    (h1 : row.interest < amt) (h2 : amt < row.amountDue) :
    (apply_payment amt rd row).endBalance
      = some (row.startingBalance - (amt - row.interest)) := by
  have hne : amt ≠ row.interest := ne_of_gt h1
  have hpos : amt - row.interest > 0 := by linarith
  rw [apply_payment_endBalance_eq, if_pos h2, if_neg hne, if_pos hpos]

/-- C10 witness. -/
theorem C10_witness :
    ((⟨⟨2024, 1, 10⟩, 1000, 100, 90, 10, 905⟩ : AmortRow).interest < (50 : ℚ)) ∧
    ((50 : ℚ) < (⟨⟨2024, 1, 10⟩, 1000, 100, 90, 10, 905⟩ : AmortRow).amountDue) ∧
    (apply_payment 50 ⟨2024, 1, 10⟩
        ⟨⟨2024, 1, 10⟩, 1000, 100, 90, 10, 905⟩).endBalance
      = some ((⟨⟨2024, 1, 10⟩, 1000, 100, 90, 10, 905⟩ : AmortRow).startingBalance
          - ((50 : ℚ) - (⟨⟨2024, 1, 10⟩, 1000, 100, 90, 10, 905⟩ : AmortRow).interest)) :=
  ⟨by norm_num, by norm_num,
   C10_middle_region ⟨⟨2024, 1, 10⟩, 1000, 100, 90, 10, 905⟩ ⟨2024, 1, 10⟩ 50
     (by norm_num) (by norm_num)⟩

/-! ### Structure lemmas for the running balance pass -/

/-- Shape of the periods after the first produced by the first pass: start
    and end balances still unset. -/
def TailShape (L : List Entry) : Prop :=
  ∀ e ∈ L, e.startBalance = none ∧ e.endBalance = none

/-- The ending balance the running balance pass writes into a period with
    unset balances when the previous period ended at pe. -/
def nextEnd (pe : ℚ) (e : Entry) : ℚ :=
  if pe < e.amountDue then roundTo 1 (pe - e.principalDue) else roundTo 2 (pe - e.principalDue)

lemma runningBalance_cons_unset (P pe : ℚ) (e : Entry) (rest : List Entry)
    (h1 : e.startBalance = none) (h2 : e.endBalance = none) :
    runningBalance P (some pe) (e :: rest)
      = { e with startBalance := some pe, endBalance := some (nextEnd pe e) }
        :: runningBalance P (some (nextEnd pe e)) rest := by
  simp [runningBalance, nextEnd, h1, h2]

lemma runningBalance_cons_first (P : ℚ) (pe0 : Option ℚ) (e : Entry) (rest : List Entry)
    (h1 : e.startBalance = some P) (h2 : e.endBalance = none) :
    runningBalance P pe0 (e :: rest)
      = { e with endBalance := some (roundTo 2 (P - e.principalDue)) }
        :: runningBalance P (some (roundTo 2 (P - e.principalDue))) rest := by
  simp [runningBalance, h1, h2]

lemma runningBalance_length (P : ℚ) :
    ∀ (L : List Entry) (pe : Option ℚ), (runningBalance P pe L).length = L.length := by
  intro L
  induction L with
  | nil => intro pe; rfl
  | cons e rest ih =>
      intro pe
      simp only [runningBalance]
      simp [ih]

lemma runningBalance_head_unset (P pe : ℚ) (L : List Entry) (h : TailShape L) :
    ∀ e, (runningBalance P (some pe) L)[0]? = some e →
      e.startBalance = some pe ∧ e.endBalance = some (nextEnd pe e) := by
  cases L with
  | nil => intro e he; simp [runningBalance] at he
  | cons x rest =>
      intro e he
      obtain ⟨hx1, hx2⟩ := h x (by simp)
      rw [runningBalance_cons_unset P pe x rest hx1 hx2] at he
      simp only [List.getElem?_cons_zero, Option.some.injEq] at he
      subst he
      exact ⟨rfl, rfl⟩

lemma runningBalance_link (P : ℚ) :
    ∀ (L : List Entry) (pe : ℚ), TailShape L → ∀ (i : ℕ) (ep e : Entry),
      (runningBalance P (some pe) L)[i]? = some ep →
      (runningBalance P (some pe) L)[i + 1]? = some e →
      ∃ q, ep.endBalance = some q ∧ e.startBalance = some q ∧
        e.endBalance = some (nextEnd q e) := by
  intro L
  induction L with
  | nil => intro pe _ i ep e hp; simp [runningBalance] at hp
  | cons x rest ih =>
      intro pe h i ep e hp hn
      obtain ⟨hx1, hx2⟩ := h x (by simp)
      have hrest : TailShape rest := fun y hy => h y (by simp [hy])
      rw [runningBalance_cons_unset P pe x rest hx1 hx2] at hp hn
      cases i with
      | zero =>
          simp only [List.getElem?_cons_zero, Option.some.injEq] at hp
          simp only [List.getElem?_cons_succ] at hn
          refine ⟨nextEnd pe x, ?_, ?_⟩
          · rw [← hp]
          · exact runningBalance_head_unset P (nextEnd pe x) rest hrest e hn
      | succ j =>
          simp only [List.getElem?_cons_succ] at hp hn
          exact ih (nextEnd pe x) hrest j ep e hp hn

/-! ### Structure lemmas for the first pass and the built schedule -/

lemma buildEntries_length (d : List CalDate) (P r : ℚ) (T : ℕ) :
    (buildEntries d P r T).length = T := by
  simp [buildEntries]

lemma buildEntries_cons (d : List CalDate) (P r : ℚ) (n : ℕ) :
    ∃ e0 tail, buildEntries d P r (n + 1) = e0 :: tail ∧
      e0.startBalance = some P ∧ e0.endBalance = none ∧
      e0.principalDue = roundTo 3 (ppmt r (n + 1) P 1) ∧
      TailShape tail ∧ tail.length = n := by
  unfold buildEntries
  rw [List.range_succ_eq_map, List.map_cons]
  refine ⟨_, _, rfl, ?_, ?_, ?_, ?_, ?_⟩
  · simp
  · simp
  · simp
  · intro e he
    simp only [List.map_map, List.mem_map, Function.comp] at he
    obtain ⟨j, _, rfl⟩ := he
    constructor <;> simp
  · simp

lemma exists_getElem?_some {α : Type} {l : List α} {i : ℕ} (h : i < l.length) :
    ∃ x, l[i]? = some x := by
  refine ⟨l[i], ?_⟩
  exact List.getElem?_eq_getElem h

/-- Head decomposition of a built schedule: period 1 keeps its start balance
    equal to the loan principal and receives end balance round(P - principal
    due of period 1, 2); the later periods are produced by the running pass
    carried from that end balance. -/
lemma calculate_amortization_cons (O : CalDate) (P r : ℚ) (n : ℕ) :
    ∃ (e0 : Entry) (tail : List Entry), calculate_amortization O P r (n + 1)
        = { e0 with endBalance := some (roundTo 2 (P - e0.principalDue)) }
          :: runningBalance P (some (roundTo 2 (P - e0.principalDue))) tail ∧
      e0.startBalance = some P ∧ e0.endBalance = none ∧
      e0.principalDue = roundTo 3 (ppmt (r / 12) (n + 1) P 1) ∧
      TailShape tail ∧ tail.length = n := by
  obtain ⟨e0, tail, heq, h1, h2, h3, h4, h5⟩ :=
    buildEntries_cons (list_due_dates (addMonths O 1) (addMonths (addMonths O 1) (n + 1)))
      P (r / 12) n
  refine ⟨e0, tail, ?_, h1, h2, h3, h4, h5⟩
  show runningBalance P none
      (buildEntries (list_due_dates (addMonths O 1) (addMonths (addMonths O 1) (n + 1)))
        P (r / 12) (n + 1)) = _
  rw [heq, runningBalance_cons_first P none e0 tail h1 h2]

lemma calculate_amortization_length (O : CalDate) (P r : ℚ) (T : ℕ) :
    (calculate_amortization O P r T).length = T := by
  unfold calculate_amortization
  rw [runningBalance_length, buildEntries_length]

/-- Consecutive periods of a built schedule: the start balance of period
    i + 2 is the end balance of period i + 1, and its end balance follows
    the asymmetric rounding rule of the running pass. -/
lemma calculate_amortization_link (O : CalDate) (P r : ℚ) (T : ℕ) (i : ℕ)
    (ep e : Entry)
    (hp : (calculate_amortization O P r T)[i]? = some ep)
    (hn : (calculate_amortization O P r T)[i + 1]? = some e) :
    ∃ q, ep.endBalance = some q ∧ e.startBalance = some q ∧
      e.endBalance = some (nextEnd q e) := by
  cases T with
  | zero =>
      exfalso
      have h0 : calculate_amortization O P r 0 = [] :=
        List.length_eq_zero.mp (calculate_amortization_length O P r 0)
      rw [h0] at hp
      simp at hp
  | succ n =>
      obtain ⟨e0, tail, heq, h1, h2, h3, h4, h5⟩ := calculate_amortization_cons O P r n
      rw [heq] at hp hn
      cases i with
      | zero =>
          simp only [List.getElem?_cons_zero, Option.some.injEq] at hp
          simp only [List.getElem?_cons_succ] at hn
          refine ⟨roundTo 2 (P - e0.principalDue), ?_, ?_⟩
          · rw [← hp]
          · exact runningBalance_head_unset P _ tail h4 e hn
      | succ j =>
          simp only [List.getElem?_cons_succ] at hp hn
          exact runningBalance_link P tail _ h4 j ep e hp hn

/-- Every period of a built schedule carries a set start balance and a set
    end balance. -/
lemma calculate_amortization_all_set (O : CalDate) (P r : ℚ) (T : ℕ) :
    ∀ e ∈ calculate_amortization O P r T,
      e.startBalance.isSome ∧ e.endBalance.isSome := by
  have haux : ∀ (L : List Entry) (pe : ℚ), TailShape L →
      ∀ e ∈ runningBalance P (some pe) L,
        e.startBalance.isSome ∧ e.endBalance.isSome := by
    intro L
    induction L with
    | nil => intro pe _ e he; simp [runningBalance] at he
    | cons x rest ih =>
        intro pe h e he
        obtain ⟨hx1, hx2⟩ := h x (by simp)
        have hrest : TailShape rest := fun y hy => h y (by simp [hy])
        rw [runningBalance_cons_unset P pe x rest hx1 hx2] at he
        rcases List.mem_cons.mp he with rfl | hmem
        · constructor <;> rfl
        · exact ih (nextEnd pe x) hrest e hmem
  cases T with
  | zero =>
      intro e he
      have h0 : calculate_amortization O P r 0 = [] :=
        List.length_eq_zero.mp (calculate_amortization_length O P r 0)
      rw [h0] at he
      simp at he
  | succ n =>
      obtain ⟨e0, tail, heq, h1, h2, _, h4, _⟩ := calculate_amortization_cons O P r n
      intro e he
      rw [heq] at he
      rcases List.mem_cons.mp he with rfl | hmem
      · constructor
        · show e0.startBalance.isSome
          rw [h1]
          rfl
        · rfl
      · exact haux tail _ h4 e hmem

/-- C8: period 1 of a built schedule starts at the loan principal, and every
    later period starts at the end balance of the period before it. -/
theorem C8_running_balance_invariant (O : CalDate) (P r : ℚ) (T : ℕ) (hT : 1 ≤ T) :
    (∃ e1, (calculate_amortization O P r T)[0]? = some e1 ∧
      e1.startBalance = some P) ∧
    ∀ t, 2 ≤ t → t ≤ T →
      ∃ ep e q, (calculate_amortization O P r T)[t - 2]? = some ep ∧
        (calculate_amortization O P r T)[t - 1]? = some e ∧
        ep.endBalance = some q ∧ e.startBalance = some q := by
  have hlen := calculate_amortization_length O P r T
  constructor
  · obtain ⟨n, rfl⟩ : ∃ n, T = n + 1 := ⟨T - 1, by omega⟩
    obtain ⟨e0, tail, heq, h1, h2, _, _, _⟩ := calculate_amortization_cons O P r n
    refine ⟨{ e0 with endBalance := some (roundTo 2 (P - e0.principalDue)) }, ?_, ?_⟩
    · rw [heq]
      exact List.getElem?_cons_zero
    · exact h1
  · intro t h2t htT
    obtain ⟨ep, hp⟩ := exists_getElem?_some
      (l := calculate_amortization O P r T) (i := t - 2) (by omega)
    obtain ⟨e, hn⟩ := exists_getElem?_some
      (l := calculate_amortization O P r T) (i := t - 1) (by omega)
    have ht12 : t - 1 = (t - 2) + 1 := by omega
    rw [ht12] at hn
    obtain ⟨q, hq1, hq2, _⟩ := calculate_amortization_link O P r T (t - 2) ep e hp hn
    exact ⟨ep, e, q, hp, by rw [ht12]; exact hn, hq1, hq2⟩

/-- C8 witness. -/
theorem C8_witness :
    (1 ≤ 12) ∧
    ((∃ e1, (calculate_amortization ⟨2024, 1, 1⟩ 1200 0 12)[0]? = some e1 ∧
      e1.startBalance = some 1200) ∧
    ∀ t, 2 ≤ t → t ≤ 12 →
      ∃ ep e q, (calculate_amortization ⟨2024, 1, 1⟩ 1200 0 12)[t - 2]? = some ep ∧
        (calculate_amortization ⟨2024, 1, 1⟩ 1200 0 12)[t - 1]? = some e ∧
        ep.endBalance = some q ∧ e.startBalance = some q) :=
  ⟨by norm_num, C8_running_balance_invariant ⟨2024, 1, 1⟩ 1200 0 12 (by norm_num)⟩

/-- C7: in a built schedule, the end balance of every period after the first
    is the start balance minus the principal due rounded to 2 decimal
    places, except that it is rounded to 1 decimal place when the previous
    end balance (equal to the start balance) is below the scheduled payment
    amount. -/
theorem C7_asymmetric_rounding (O : CalDate) (P r : ℚ) (T : ℕ) (t : ℕ)
    (h2t : 2 ≤ t) (htT : t ≤ T) :
    ∃ ep e q, (calculate_amortization O P r T)[t - 2]? = some ep ∧
      (calculate_amortization O P r T)[t - 1]? = some e ∧
      ep.endBalance = some q ∧ e.startBalance = some q ∧
      e.endBalance = some (if q < e.amountDue
        then roundTo 1 (q - e.principalDue)
        else roundTo 2 (q - e.principalDue)) := by
  have hlen := calculate_amortization_length O P r T
  obtain ⟨ep, hp⟩ := exists_getElem?_some
    (l := calculate_amortization O P r T) (i := t - 2) (by omega)
  obtain ⟨e, hn⟩ := exists_getElem?_some
    (l := calculate_amortization O P r T) (i := t - 1) (by omega)
  have ht12 : t - 1 = (t - 2) + 1 := by omega
  rw [ht12] at hn
  obtain ⟨q, hq1, hq2, hq3⟩ := calculate_amortization_link O P r T (t - 2) ep e hp hn
  exact ⟨ep, e, q, hp, by rw [ht12]; exact hn, hq1, hq2, hq3⟩

/-- C7 witness. -/
theorem C7_witness :
    (2 ≤ 2) ∧ (2 ≤ 12) ∧
    (∃ ep e q, (calculate_amortization ⟨2024, 1, 1⟩ 1200 0 12)[2 - 2]? = some ep ∧
      (calculate_amortization ⟨2024, 1, 1⟩ 1200 0 12)[2 - 1]? = some e ∧
      ep.endBalance = some q ∧ e.startBalance = some q ∧
      e.endBalance = some (if q < e.amountDue
        then roundTo 1 (q - e.principalDue)
        else roundTo 2 (q - e.principalDue))) :=
  ⟨by norm_num, by norm_num,
    C7_asymmetric_rounding ⟨2024, 1, 1⟩ 1200 0 12 2 (by norm_num) (by norm_num)⟩

/-! ### Structure lemmas for the balloon adjustment -/

lemma roundTo_zero (n : ℕ) : roundTo n 0 = 0 := by
  simp [roundTo]

lemma balloonStep_lt (sched : List Entry) (b m : ℤ) (e : Entry) (h : m < b) :
    balloonStep sched b m e = some { e with extraPayment := some 0 } := by
  simp [balloonStep, h]

lemma balloonStep_gt (sched : List Entry) (b m : ℤ) (e : Entry) (h : b < m) :
    balloonStep sched b m e = some { e with
      startBalance := some 0
      amountDue := 0
      extraPayment := some 0
      totalPayment := some 0
      principalDue := 0
      interestDue := 0
      endBalance := some 0 } := by
  have h1 : ¬ m < b := by omega
  have h2 : m ≠ b := by omega
  simp [balloonStep, h1, h2]

lemma balloonStep_eq_none (sched : List Entry) (b : ℤ) (e : Entry)
    (h : prevStartLookup sched (b - 1) = none) :
    balloonStep sched b b e = none := by
  simp [balloonStep, h]

lemma balloonStep_eq_some (sched : List Entry) (b : ℤ) (e : Entry) (sb : ℚ)
    (h : prevStartLookup sched (b - 1) = some sb) :
    balloonStep sched b b e
      = some { e with
          extraPayment := some (roundTo 2 (sb + e.interestDue - e.amountDue)),
          endBalance := some 0 } := by
  unfold balloonStep
  rw [if_neg (lt_irrefl b), if_pos rfl, h]
  have h0 : roundTo 2 (sb + e.interestDue - e.amountDue
      - (sb + e.interestDue - e.amountDue)) = 0 := by
    rw [show sb + e.interestDue - e.amountDue - (sb + e.interestDue - e.amountDue) = 0
      from by ring, roundTo_zero]
  conv_rhs => rw [← h0]

lemma balloonGo_some_spec (sched : List Entry) (b : ℤ) :
    ∀ (L : List Entry) (m : ℤ) (out : List Entry),
      balloonGo sched b m L = some out →
      out.length = L.length ∧ ∀ (i : ℕ) (e : Entry), L[i]? = some e →
        ∃ e2, balloonStep sched b (m + i) e = some e2 ∧ out[i]? = some e2 := by
  intro L
  induction L with
  | nil =>
      intro m out h
      simp only [balloonGo, Option.some.injEq] at h
      subst h
      exact ⟨rfl, fun i e he => by simp at he⟩
  | cons x rest ih =>
      intro m out h
      simp only [balloonGo] at h
      cases hs : balloonStep sched b m x with
      | none => rw [hs] at h; simp at h
      | some x2 =>
          rw [hs] at h
          cases hr : balloonGo sched b (m + 1) rest with
          | none => rw [hr] at h; simp at h
          | some out2 =>
              rw [hr] at h
              simp only [Option.some.injEq] at h
              subst h
              obtain ⟨hlen, hidx⟩ := ih (m + 1) out2 hr
              constructor
              · simp [hlen]
              · intro i e he
                cases i with
                | zero =>
                    simp only [List.getElem?_cons_zero, Option.some.injEq] at he
                    subst he
                    refine ⟨x2, ?_, by simp⟩
                    simpa using hs
                | succ j =>
                    simp only [List.getElem?_cons_succ] at he
                    obtain ⟨e2, he2, ho⟩ := hidx j e he
                    refine ⟨e2, ?_, by simpa using ho⟩
                    rw [show m + (j + 1 : ℕ) = m + 1 + (j : ℕ) from by push_cast; ring]
                    exact he2

lemma balloonGo_none_of (sched : List Entry) (b : ℤ) :
    ∀ (L : List Entry) (m : ℤ) (i : ℕ) (e : Entry), L[i]? = some e →
      balloonStep sched b (m + i) e = none → balloonGo sched b m L = none := by
  intro L
  induction L with
  | nil => intro m i e he; simp at he
  | cons x rest ih =>
      intro m i e he hstep
      cases i with
      | zero =>
          simp only [List.getElem?_cons_zero, Option.some.injEq] at he
          subst he
          have hx : balloonStep sched b m x = none := by simpa using hstep
          simp [balloonGo, hx]
      | succ j =>
          simp only [List.getElem?_cons_succ] at he
          have hrest : balloonGo sched b (m + 1) rest = none := by
            refine ih (m + 1) j e he ?_
            rw [show m + 1 + (j : ℕ) = m + (j + 1 : ℕ) from by push_cast; ring]
            exact hstep
          simp only [balloonGo, hrest]
          cases balloonStep sched b m x <;> rfl

lemma balloonGo_isSome (sched : List Entry) (b : ℤ) :
    ∀ (L : List Entry) (m : ℤ),
      (∀ (i : ℕ) (e : Entry), L[i]? = some e → (balloonStep sched b (m + i) e).isSome) →
      (balloonGo sched b m L).isSome := by
  intro L
  induction L with
  | nil => intro m _; rfl
  | cons x rest ih =>
      intro m h
      have hx : (balloonStep sched b m x).isSome := by
        have := h 0 x (by simp)
        simpa using this
      have hrest : (balloonGo sched b (m + 1) rest).isSome := by
        refine ih (m + 1) (fun j e he => ?_)
        have := h (j + 1) e (by simpa using he)
        rw [show m + 1 + (j : ℕ) = m + (j + 1 : ℕ) from by push_cast; ring]
        exact this
      obtain ⟨x2, hx2⟩ := Option.isSome_iff_exists.mp hx
      obtain ⟨out2, hout2⟩ := Option.isSome_iff_exists.mp hrest
      simp [balloonGo, hx2, hout2]

lemma prevStartLookup_zero (sched : List Entry) (k : ℤ) (hk : k < 1) :
    prevStartLookup sched k = none := by
  have hn : ¬ (1 : ℤ) ≤ k := by omega
  simp [prevStartLookup, hn]

lemma prevStartLookup_calc_some (O : CalDate) (P r : ℚ) (T : ℕ) (k : ℤ)
    (h1 : 1 ≤ k) (hk : k ≤ (T : ℤ)) :
    ∃ sb ep, prevStartLookup (calculate_amortization O P r T) k = some sb ∧
      (calculate_amortization O P r T)[(k - 1).toNat]? = some ep ∧
      ep.startBalance = some sb := by
  have hlen := calculate_amortization_length O P r T
  obtain ⟨ep, hp⟩ := exists_getElem?_some
    (l := calculate_amortization O P r T) (i := (k - 1).toNat) (by omega)
  have hmem : ep ∈ calculate_amortization O P r T := List.getElem?_mem hp
  have hs := (calculate_amortization_all_set O P r T ep hmem).1
  obtain ⟨sb, hsb⟩ := Option.isSome_iff_exists.mp hs
  refine ⟨sb, ep, ?_, hp, hsb⟩
  unfold prevStartLookup
  rw [if_pos h1, hp]
  simp [hsb]

/-- The balloon adjustment over a built schedule aborts exactly when the
    target period is 1 and the schedule is nonempty: the source then looks
    up period 0, which does not exist.  In particular there is no range
    validation: any other target period, in range or not, succeeds. -/
lemma apply_balloon_none_iff (O : CalDate) (P r : ℚ) (T : ℕ) (b : ℤ) :
    apply_balloon_payment (calculate_amortization O P r T) b = none
      ↔ (b = 1 ∧ 1 ≤ T) := by
  have hlen := calculate_amortization_length O P r T
  constructor
  · intro h
    by_contra hc
    rw [not_and_or] at hc
    have hsome : (balloonGo (calculate_amortization O P r T) b 1
        (calculate_amortization O P r T)).isSome := by
      apply balloonGo_isSome
      intro i e he
      have hi : i < T := by
        have := (List.getElem?_eq_some_iff.mp he).1
        omega
      rcases lt_trichotomy ((1 : ℤ) + i) b with hm | hm | hm
      · rw [balloonStep_lt _ _ _ _ hm]; rfl
      · -- the step at the balloon period itself; here b is in range and not 1
        have hb1 : 1 ≤ b := by omega
        have hbT : b ≤ (T : ℤ) := by omega
        have hbne : b ≠ 1 := by
          rcases hc with hc | hc
          · exact hc
          · omega
        obtain ⟨sb, ep, hl, _, _⟩ :=
          prevStartLookup_calc_some O P r T (b - 1) (by omega) (by omega)
        rw [hm, balloonStep_eq_some _ _ _ _ hl]
        rfl
      · rw [balloonStep_gt _ _ _ _ hm]; rfl
    rw [apply_balloon_payment] at h
    rw [h] at hsome
    exact Bool.false_ne_true (by simp at hsome)
  · rintro ⟨rfl, hT⟩
    obtain ⟨e, he⟩ := exists_getElem?_some
      (l := calculate_amortization O P r T) (i := 0) (by omega)
    apply balloonGo_none_of (i := 0) (e := e)
    · exact he
    · apply balloonStep_eq_none
      apply prevStartLookup_zero
      omega

/-- C5 (amended): the balloon adjustment performs no range validation; over a
    built schedule it fails only for target period 1 (the period-0 lookup)
    and succeeds for every other target period, inside or outside the range. -/
theorem C5_no_range_validation (O : CalDate) (P r : ℚ) (T : ℕ) (b : ℤ) :
    apply_balloon_payment (calculate_amortization O P r T) b = none
      ↔ (b = 1 ∧ 1 ≤ T) :=
  apply_balloon_none_iff O P r T b

/-- C5 counterexample: on a built 12 month schedule, the out-of-range target
    period 13 does not fail, and the in-range target period 1 does fail; so
    failure is not "exactly when the period is outside the range" and no
    InvalidBalloonPeriod error exists. -/
theorem C5_counterexample :
    apply_balloon_payment (calculate_amortization ⟨2024, 1, 1⟩ 1200 0 12) 13 ≠ none ∧
    apply_balloon_payment (calculate_amortization ⟨2024, 1, 1⟩ 1200 0 12) 1 = none := by
  constructor
  · intro h
    rw [apply_balloon_none_iff] at h
    exact absurd h.1 (by norm_num)
  · rw [apply_balloon_none_iff]
    exact ⟨rfl, by norm_num⟩

/-- C6: applying the balloon adjustment with target period 1 to a nonempty
    built schedule looks up the nonexistent period 0 and fails, producing no
    adjusted schedule, although period 1 is inside the documented range. -/
theorem C6_period_one_lookup_fails (O : CalDate) (P r : ℚ) (T : ℕ) (hT : 1 ≤ T) :
    apply_balloon_payment (calculate_amortization O P r T) 1 = none :=
  (apply_balloon_none_iff O P r T 1).mpr ⟨rfl, hT⟩

/-- C6 witness. -/
theorem C6_witness :
    (1 ≤ 12) ∧
    apply_balloon_payment (calculate_amortization ⟨2024, 1, 1⟩ 1200 0 12) 1 = none :=
  ⟨by norm_num, C6_period_one_lookup_fails ⟨2024, 1, 1⟩ 1200 0 12 (by norm_num)⟩

/-- C9 (amended): for a balloon period b with 2 <= b <= T, every period
    before b is unchanged except its extra payment being set to 0, and every
    period after b has all monetary fields zeroed; the due date field is
    kept.  The restriction to b >= 2 is forced: b = 1 fails (see C6). -/
theorem C9_balloon_frame_amended (O : CalDate) (P r : ℚ) (T b : ℕ)
    (h2 : 2 ≤ b) (_hT : b ≤ T) :
    ∃ out, apply_balloon_payment (calculate_amortization O P r T) (b : ℤ) = some out ∧
      (∀ (i : ℕ) (e : Entry), i + 1 < b →
        (calculate_amortization O P r T)[i]? = some e →
        out[i]? = some { e with extraPayment := some 0 }) ∧
      (∀ (i : ℕ) (e : Entry), b < i + 1 →
        (calculate_amortization O P r T)[i]? = some e →
        out[i]? = some { e with
          startBalance := some 0
          amountDue := 0
          extraPayment := some 0
          totalPayment := some 0
          principalDue := 0
          interestDue := 0
          endBalance := some 0 }) := by
  have hns : apply_balloon_payment (calculate_amortization O P r T) (b : ℤ) ≠ none := by
    intro h
    rw [apply_balloon_none_iff] at h
    omega
  obtain ⟨out, hout⟩ := Option.ne_none_iff_exists'.mp hns
  have hout2 : balloonGo (calculate_amortization O P r T) (b : ℤ) 1
      (calculate_amortization O P r T) = some out := hout
  obtain ⟨hlen, hidx⟩ := balloonGo_some_spec _ _ _ _ _ hout2
  refine ⟨out, hout, ?_, ?_⟩
  · intro i e hib hie
    obtain ⟨e2, hstep, ho⟩ := hidx i e hie
    rw [balloonStep_lt _ _ _ _ (by omega)] at hstep
    simp only [Option.some.injEq] at hstep
    rw [← hstep] at ho
    exact ho
  · intro i e hib hie
    obtain ⟨e2, hstep, ho⟩ := hidx i e hie
    rw [balloonStep_gt _ _ _ _ (by omega)] at hstep
    simp only [Option.some.injEq] at hstep
    rw [← hstep] at ho
    exact ho

/-- C9 witness. -/
theorem C9_witness :
    (2 ≤ 6) ∧ (6 ≤ 12) ∧
    (∃ out, apply_balloon_payment
        (calculate_amortization ⟨2024, 1, 1⟩ 1200 0 12) ((6 : ℕ) : ℤ) = some out ∧
      (∀ (i : ℕ) (e : Entry), i + 1 < 6 →
        (calculate_amortization ⟨2024, 1, 1⟩ 1200 0 12)[i]? = some e →
        out[i]? = some { e with extraPayment := some 0 }) ∧
      (∀ (i : ℕ) (e : Entry), 6 < i + 1 →
        (calculate_amortization ⟨2024, 1, 1⟩ 1200 0 12)[i]? = some e →
        out[i]? = some { e with
          startBalance := some 0
          amountDue := 0
          extraPayment := some 0
          totalPayment := some 0
          principalDue := 0
          interestDue := 0
          endBalance := some 0 })) :=
  ⟨by norm_num, by norm_num,
    C9_balloon_frame_amended ⟨2024, 1, 1⟩ 1200 0 12 6 (by norm_num) (by norm_num)⟩

/-- C9 counterexample: for the in-range balloon period 1 on a built
    schedule, no adjusted schedule exists at all, so the frame property
    fails as stated for every in-range period. -/
theorem C9_counterexample :
    ¬ ∃ out, apply_balloon_payment
        (calculate_amortization ⟨2024, 1, 1⟩ 1200 0 12) 1 = some out := by
  rintro ⟨out, hout⟩
  have : apply_balloon_payment (calculate_amortization ⟨2024, 1, 1⟩ 1200 0 12) 1
      = none := (apply_balloon_none_iff _ _ _ _ _).mpr ⟨rfl, by norm_num⟩
  rw [this] at hout
  cases hout

/-- C3 (amended): for a balloon period b with 2 <= b <= T, the payoff amount
    the source computes is the starting balance of period b - 1 (not of
    period b) plus the interest due of period b; the extra payment stored in
    period b is round(payoff - scheduled amount due, 2) and the ending
    balance of period b is forced to 0.  The restriction to b >= 2 is
    forced: b = 1 fails on the period-0 lookup. -/
theorem C3_balloon_payoff_amended (O : CalDate) (P r : ℚ) (T b : ℕ)
    (h2 : 2 ≤ b) (hT : b ≤ T) :
    ∃ out ep e sb,
      apply_balloon_payment (calculate_amortization O P r T) (b : ℤ) = some out ∧
      (calculate_amortization O P r T)[b - 2]? = some ep ∧
      ep.startBalance = some sb ∧
      (calculate_amortization O P r T)[b - 1]? = some e ∧
      out[b - 1]? = some { e with
        extraPayment := some (roundTo 2 (sb + e.interestDue - e.amountDue)),
        endBalance := some 0 } := by
  have hlen := calculate_amortization_length O P r T
  obtain ⟨sb, ep, hl, hp, hsb⟩ :=
    prevStartLookup_calc_some O P r T ((b : ℤ) - 1) (by omega) (by omega)
  have hidx2 : (((b : ℤ) - 1) - 1).toNat = b - 2 := by omega
  rw [hidx2] at hp
  have hns : apply_balloon_payment (calculate_amortization O P r T) (b : ℤ) ≠ none := by
    intro h
    rw [apply_balloon_none_iff] at h
    omega
  obtain ⟨out, hout⟩ := Option.ne_none_iff_exists'.mp hns
  have hout2 : balloonGo (calculate_amortization O P r T) (b : ℤ) 1
      (calculate_amortization O P r T) = some out := hout
  obtain ⟨hlout, hidx⟩ := balloonGo_some_spec _ _ _ _ _ hout2
  obtain ⟨e, he⟩ := exists_getElem?_some
    (l := calculate_amortization O P r T) (i := b - 1) (by omega)
  obtain ⟨e2, hstep, ho⟩ := hidx (b - 1) e he
  have hcast : (1 : ℤ) + ((b - 1 : ℕ) : ℤ) = (b : ℤ) := by omega
  rw [hcast, balloonStep_eq_some _ _ _ _ hl] at hstep
  simp only [Option.some.injEq] at hstep
  rw [← hstep] at ho
  exact ⟨out, ep, e, sb, hout, hp, hsb, he, ho⟩

/-- C3 witness. -/
theorem C3_witness :
    (2 ≤ 6) ∧ (6 ≤ 12) ∧
    (∃ out ep e sb,
      apply_balloon_payment
        (calculate_amortization ⟨2024, 1, 1⟩ 1200 0 12) ((6 : ℕ) : ℤ) = some out ∧
      (calculate_amortization ⟨2024, 1, 1⟩ 1200 0 12)[6 - 2]? = some ep ∧
      ep.startBalance = some sb ∧
      (calculate_amortization ⟨2024, 1, 1⟩ 1200 0 12)[6 - 1]? = some e ∧
      out[6 - 1]? = some { e with
        extraPayment := some (roundTo 2 (sb + e.interestDue - e.amountDue)),
        endBalance := some 0 }) :=
  ⟨by norm_num, by norm_num,
    C3_balloon_payoff_amended ⟨2024, 1, 1⟩ 1200 0 12 6 (by norm_num) (by norm_num)⟩

/-- A small built schedule used as concrete counterexample input: loan 1200,
    annual rate 0, term 2 months, originated 2024-01-01. -/
def sampleSchedule : List Entry := calculate_amortization ⟨2024, 1, 1⟩ 1200 0 2

lemma sampleSchedule_eq : sampleSchedule =
    [{ startBalance := some 1200, dueDate := ⟨2024, 2, 10⟩, amountDue := 600,
       extraPayment := none, totalPayment := none, principalDue := 600,
       interestDue := 0, endBalance := some 600 },
     { startBalance := some 600, dueDate := ⟨2024, 3, 10⟩, amountDue := 600,
       extraPayment := none, totalPayment := none, principalDue := 600,
       interestDue := 0, endBalance := some 0 }] := by
  have hdates : list_due_dates (addMonths ⟨2024, 1, 1⟩ 1)
      (addMonths (addMonths ⟨2024, 1, 1⟩ 1) 2) = [⟨2024, 2, 10⟩, ⟨2024, 3, 10⟩] := by
    decide
  show runningBalance 1200 none
      (buildEntries (list_due_dates (addMonths ⟨2024, 1, 1⟩ 1)
        (addMonths (addMonths ⟨2024, 1, 1⟩ 1) 2)) 1200 ((0 : ℚ)/12) 2) = _
  rw [hdates, show ((0 : ℚ)/12) = 0 from by norm_num]
  have hpmt : pmt 0 2 1200 = 600 := by norm_num [pmt]
  have hip : ∀ t, ipmt 0 2 1200 t = 0 := fun t => by simp [ipmt]
  have hr2 : roundTo 2 (600 : ℚ) = 600 := by norm_num [roundTo, round_eq]
  have hr3 : roundTo 3 (600 : ℚ) = 600 := by norm_num [roundTo, round_eq]
  have hbe : buildEntries [⟨2024, 2, 10⟩, ⟨2024, 3, 10⟩] 1200 0 2
      = [{ startBalance := some 1200, dueDate := ⟨2024, 2, 10⟩, amountDue := 600,
           extraPayment := none, totalPayment := none, principalDue := 600,
           interestDue := 0, endBalance := none },
         { startBalance := none, dueDate := ⟨2024, 3, 10⟩, amountDue := 600,
           extraPayment := none, totalPayment := none, principalDue := 600,
           interestDue := 0, endBalance := none }] := by
    unfold buildEntries
    rw [show List.range 2 = [0, 1] from by decide]
    simp [ppmt, hip, hpmt, hr2, hr3, roundTo_zero]
  rw [hbe]
  rw [runningBalance_cons_first 1200 none _ _ rfl rfl]
  norm_num [hr2]
  rw [runningBalance_cons_unset 1200 600 _ _ rfl rfl]
  norm_num [nextEnd, roundTo, round_eq, runningBalance]

/-- C3 counterexample: in the sample schedule, period 2 starts at 600 while
    period 1 starts at 1200; the source stores extra payment 600 (computed
    from the start balance of period 1), not the 0 the claim predicts from
    the start balance of period 2 itself. -/
theorem C3_counterexample :
    (apply_balloon_payment sampleSchedule 2).bind (fun l => l[1]?)
      ≠ (sampleSchedule[1]?).map (fun e =>
          { e with
            extraPayment := some (roundTo 2 ((e.startBalance.getD 0)
              + e.interestDue - e.amountDue)),
            endBalance := some 0 }) := by
  rw [sampleSchedule_eq]
  norm_num [apply_balloon_payment, balloonGo, balloonStep, prevStartLookup,
    roundTo, round_eq]

/-! ### Calendar lemmas for the due date generator -/

lemma daysInMonth_bounds (y m : ℕ) : 28 ≤ daysInMonth y m ∧ daysInMonth y m ≤ 31 := by
  unfold daysInMonth
  split
  · split <;> omega
  · split <;> omega

lemma leapsBefore_succ (y : ℕ) (hy : 1 ≤ y) :
    leapsBefore (y + 1) = leapsBefore y + (if isLeap y then 1 else 0) := by
  unfold leapsBefore isLeap
  split <;> omega

lemma daysBeforeMonth_succ (y : ℕ) {m : ℕ} (h1 : 1 ≤ m) (h2 : m ≤ 12) :
    daysBeforeMonth y (m + 1) = daysBeforeMonth y m + daysInMonth y m := by
  interval_cases m <;> by_cases hl : isLeap y <;>
    simp [daysBeforeMonth, daysInMonth, hl]

lemma daysBeforeMonth_thirteen (y : ℕ) :
    daysBeforeMonth y 13 = 365 + (if isLeap y then 1 else 0) := by
  by_cases hl : isLeap y <;> simp [daysBeforeMonth, hl]

lemma daysBeforeMonth_le (y : ℕ) {m m2 : ℕ} (h1 : 1 ≤ m) (hm : m ≤ m2) (h2 : m2 ≤ 13) :
    daysBeforeMonth y m ≤ daysBeforeMonth y m2 := by
  induction m2 with
  | zero => omega
  | succ k ih =>
      rcases Nat.lt_or_ge m (k + 1) with hlt | hge
      · have hk : 1 ≤ k ∧ k ≤ 12 := by omega
        calc daysBeforeMonth y m ≤ daysBeforeMonth y k := ih (by omega) (by omega)
          _ ≤ daysBeforeMonth y (k + 1) := by
              rw [daysBeforeMonth_succ y hk.1 hk.2]
              omega
      · have : m = k + 1 := by omega
        rw [this]

lemma valid_succDate {D : CalDate} (h : D.Valid) : (succDate D).Valid := by
  obtain ⟨hy, hm1, hm2, hd1, hd2⟩ := h
  unfold succDate
  by_cases h1 : D.day < daysInMonth D.year D.month
  · rw [if_pos h1]
    simp only [CalDate.Valid]
    omega
  · rw [if_neg h1]
    by_cases h2 : D.month < 12
    · rw [if_pos h2]
      have hb := daysInMonth_bounds D.year (D.month + 1)
      simp only [CalDate.Valid]
      omega
    · rw [if_neg h2]
      have hb := daysInMonth_bounds (D.year + 1) 1
      simp only [CalDate.Valid]
      omega

lemma toDays_succDate {D : CalDate} (h : D.Valid) :
    toDays (succDate D) = toDays D + 1 := by
  obtain ⟨hy, hm1, hm2, hd1, hd2⟩ := h
  unfold succDate
  by_cases h1 : D.day < daysInMonth D.year D.month
  · rw [if_pos h1]
    simp only [toDays]
    omega
  · rw [if_neg h1]
    have hd : D.day = daysInMonth D.year D.month := by omega
    by_cases h2 : D.month < 12
    · rw [if_pos h2]
      simp only [toDays]
      rw [daysBeforeMonth_succ D.year hm1 (by omega)]
      omega
    · rw [if_neg h2]
      have hm : D.month = 12 := by omega
      have hdim : daysInMonth D.year 12 = 31 := by simp [daysInMonth]
      have hday : D.day = 31 := by rw [hm, hdim] at hd; exact hd
      have h334 : daysBeforeMonth D.year 12 = 334 + (if isLeap D.year then 1 else 0) := by
        by_cases hl : isLeap D.year <;> simp [daysBeforeMonth, hl]
      have h0 : daysBeforeMonth (D.year + 1) 1 = 0 := by simp [daysBeforeMonth]
      simp only [toDays]
      rw [leapsBefore_succ D.year hy, h0, hm, hday, h334]
      omega

lemma daysBeforeMonth_one (y : ℕ) : daysBeforeMonth y 1 = 0 := by
  simp [daysBeforeMonth]

lemma toDays_lt_same_year_month {A B : CalDate}
    (hy : A.year = B.year) (hm : A.month = B.month) (hd : A.day < B.day) :
    toDays A < toDays B := by
  unfold toDays
  rw [hy, hm]
  omega

lemma toDays_lt_same_year {A B : CalDate} (hA : A.Valid) (hB : B.Valid)
    (hy : A.year = B.year) (hm : A.month < B.month) : toDays A < toDays B := by
  obtain ⟨_, hm1, hm2, hd1, hd2⟩ := hA
  obtain ⟨_, hm1b, hm2b, hd1b, hd2b⟩ := hB
  rw [hy] at hd2
  unfold toDays
  rw [hy]
  have h1 : daysBeforeMonth B.year (A.month + 1)
      = daysBeforeMonth B.year A.month + daysInMonth B.year A.month :=
    daysBeforeMonth_succ B.year hm1 (by omega)
  have h2 : daysBeforeMonth B.year (A.month + 1) ≤ daysBeforeMonth B.year B.month :=
    daysBeforeMonth_le B.year (by omega) (by omega) (by omega)
  omega

lemma toDays_lt_next_jan {D : CalDate} (hD : D.Valid) :
    toDays D < toDays ⟨D.year + 1, 1, 1⟩ := by
  obtain ⟨hy, hm1, hm2, hd1, hd2⟩ := hD
  have hsucc : daysBeforeMonth D.year (D.month + 1)
      = daysBeforeMonth D.year D.month + daysInMonth D.year D.month :=
    daysBeforeMonth_succ D.year hm1 (by omega)
  have h13 : daysBeforeMonth D.year (D.month + 1) ≤ daysBeforeMonth D.year 13 :=
    daysBeforeMonth_le D.year (by omega) (by omega) (by omega)
  have h365 := daysBeforeMonth_thirteen D.year
  have hLs := leapsBefore_succ D.year hy
  unfold toDays
  simp only
  rw [daysBeforeMonth_one]
  omega

lemma toDays_jan_le {D : CalDate} (hD : D.Valid) :
    toDays ⟨D.year, 1, 1⟩ ≤ toDays D := by
  obtain ⟨hy, hm1, hm2, hd1, hd2⟩ := hD
  unfold toDays
  simp only
  rw [daysBeforeMonth_one]
  omega

lemma toDays_jan_mono : ∀ {y1 y2 : ℕ}, 1 ≤ y1 → y1 ≤ y2 →
    toDays ⟨y1, 1, 1⟩ ≤ toDays ⟨y2, 1, 1⟩ := by
  intro y1 y2 h1 h
  induction y2 with
  | zero => omega
  | succ k ih =>
      rcases Nat.lt_or_ge y1 (k + 1) with hlt | hge
      · have hk1 : 1 ≤ k := by omega
        have step : toDays ⟨k, 1, 1⟩ ≤ toDays ⟨k + 1, 1, 1⟩ := by
          unfold toDays
          simp only [daysBeforeMonth_one]
          rw [leapsBefore_succ k hk1]
          omega
        exact le_trans (ih (by omega)) step
      · have heq : y1 = k + 1 := by omega
        rw [heq]

lemma toDays_lt_year {A B : CalDate} (hA : A.Valid) (hB : B.Valid)
    (hy : A.year < B.year) : toDays A < toDays B := by
  calc toDays A < toDays ⟨A.year + 1, 1, 1⟩ := toDays_lt_next_jan hA
    _ ≤ toDays ⟨B.year, 1, 1⟩ := toDays_jan_mono (by omega) (by omega)
    _ ≤ toDays B := toDays_jan_le hB

lemma toDays_inj {A B : CalDate} (hA : A.Valid) (hB : B.Valid)
    (h : toDays A = toDays B) : A = B := by
  rcases Nat.lt_trichotomy A.year B.year with hy | hy | hy
  · exact absurd h (ne_of_lt (toDays_lt_year hA hB hy))
  · rcases Nat.lt_trichotomy A.month B.month with hm | hm | hm
    · exact absurd h (ne_of_lt (toDays_lt_same_year hA hB hy hm))
    · rcases Nat.lt_trichotomy A.day B.day with hd | hd | hd
      · exact absurd h (ne_of_lt (toDays_lt_same_year_month hy hm hd))
      · cases A
        cases B
        simp only at hy hm hd
        rw [hy, hm, hd]
      · exact absurd h.symm (ne_of_lt (toDays_lt_same_year_month hy.symm hm.symm hd))
    · exact absurd h.symm (ne_of_lt (toDays_lt_same_year hB hA hy.symm hm))
  · exact absurd h.symm (ne_of_lt (toDays_lt_year hB hA hy))

lemma valid_addDays7 {D : CalDate} (h : D.Valid) : (addDays7 D).Valid := by
  obtain ⟨hy, hm1, hm2, hd1, hd2⟩ := h
  unfold addDays7
  by_cases h1 : D.day + 7 ≤ daysInMonth D.year D.month
  · rw [if_pos h1]
    simp only [CalDate.Valid]
    omega
  · rw [if_neg h1]
    by_cases h2 : D.month < 12
    · rw [if_pos h2]
      have hb := daysInMonth_bounds D.year (D.month + 1)
      simp only [CalDate.Valid]
      omega
    · rw [if_neg h2]
      have hb := daysInMonth_bounds (D.year + 1) 1
      have hm : D.month = 12 := by omega
      have hdim : daysInMonth D.year 12 = 31 := by simp [daysInMonth]
      rw [hm, hdim] at h1
      rw [hm, hdim] at hd2
      simp only [CalDate.Valid]
      omega

lemma toDays_addDays7 {D : CalDate} (h : D.Valid) :
    toDays (addDays7 D) = toDays D + 7 := by
  obtain ⟨hy, hm1, hm2, hd1, hd2⟩ := h
  unfold addDays7
  by_cases h1 : D.day + 7 ≤ daysInMonth D.year D.month
  · rw [if_pos h1]
    unfold toDays
    simp only
    omega
  · rw [if_neg h1]
    by_cases h2 : D.month < 12
    · rw [if_pos h2]
      unfold toDays
      simp only
      rw [daysBeforeMonth_succ D.year hm1 (by omega)]
      omega
    · rw [if_neg h2]
      have hm : D.month = 12 := by omega
      have hdim : daysInMonth D.year 12 = 31 := by simp [daysInMonth]
      rw [hm, hdim] at h1
      rw [hm, hdim] at hd2
      have h334 : daysBeforeMonth D.year 12 = 334 + (if isLeap D.year then 1 else 0) := by
        by_cases hl : isLeap D.year <;> simp [daysBeforeMonth, hl]
      unfold toDays
      simp only
      rw [leapsBefore_succ D.year hy, daysBeforeMonth_one, hm, h334]
      omega

lemma addDays7_first_index {D : CalDate} (h : D.Valid) :
    (monthIndex (addDays7 D) : ℤ) + (if 10 < (addDays7 D).day then 1 else 0)
      = (monthIndex D : ℤ) + (if 4 ≤ D.day then 1 else 0) := by
  obtain ⟨hy, hm1, hm2, hd1, hd2⟩ := h
  have hb := daysInMonth_bounds D.year D.month
  unfold addDays7 monthIndex
  by_cases h1 : D.day + 7 ≤ daysInMonth D.year D.month
  · rw [if_pos h1]
    simp only
    split_ifs <;> omega
  · rw [if_neg h1]
    by_cases h2 : D.month < 12
    · rw [if_pos h2]
      simp only
      split_ifs <;> push_cast <;> omega
    · rw [if_neg h2]
      have hm : D.month = 12 := by omega
      simp only
      split_ifs <;> push_cast <;> omega

lemma addDays7_last_index {D : CalDate} (h : D.Valid) :
    (monthIndex (addDays7 D) : ℤ) - (if (addDays7 D).day < 10 then 1 else 0)
      = (monthIndex D : ℤ) - (if D.day ≤ 2 then 1 else 0) := by
  obtain ⟨hy, hm1, hm2, hd1, hd2⟩ := h
  have hb := daysInMonth_bounds D.year D.month
  unfold addDays7 monthIndex
  by_cases h1 : D.day + 7 ≤ daysInMonth D.year D.month
  · rw [if_pos h1]
    simp only
    split_ifs <;> omega
  · rw [if_neg h1]
    by_cases h2 : D.month < 12
    · rw [if_pos h2]
      simp only
      split_ifs <;> push_cast <;> omega
    · rw [if_neg h2]
      have hm : D.month = 12 := by omega
      simp only
      split_ifs <;> push_cast <;> omega

lemma valid_addMonths {D : CalDate} (h : D.Valid) (k : ℕ) : (addMonths D k).Valid := by
  obtain ⟨hy, hm1, hm2, hd1, hd2⟩ := h
  unfold addMonths
  simp only [CalDate.Valid]
  have hb := daysInMonth_bounds (D.year + ((D.month - 1) + k) / 12)
    (((D.month - 1) + k) % 12 + 1)
  omega

lemma monthIndex_addMonths {D : CalDate} (hm : 1 ≤ D.month) (k : ℕ) :
    monthIndex (addMonths D k) = monthIndex D + k := by
  unfold addMonths monthIndex
  simp only
  omega

lemma addMonths_day (D : CalDate) (k : ℕ) :
    ∃ L, 28 ≤ L ∧ (addMonths D k).day = min D.day L := by
  refine ⟨daysInMonth (D.year + ((D.month - 1) + k) / 12) (((D.month - 1) + k) % 12 + 1),
    (daysInMonth_bounds _ _).1, rfl⟩

lemma addMonths_zero {D : CalDate} (h : D.Valid) : addMonths D 0 = D := by
  obtain ⟨hy, hm1, hm2, hd1, hd2⟩ := h
  unfold addMonths
  simp only
  have h1 : (D.month - 1 + 0) / 12 = 0 := by omega
  have h2 : (D.month - 1 + 0) % 12 = D.month - 1 := by omega
  rw [h1, h2, show D.month - 1 + 1 = D.month from by omega]
  cases D with
  | mk y m d =>
      simp only at hd2 ⊢
      rw [Nat.add_zero, min_eq_left hd2]

lemma toDays_le_addMonths {D : CalDate} (h : D.Valid) (k : ℕ) :
    toDays D ≤ toDays (addMonths D k) := by
  cases k with
  | zero => rw [addMonths_zero h]
  | succ n =>
      have hv2 := valid_addMonths h (n + 1)
      have hmi := monthIndex_addMonths h.2.1 (k := n + 1)
      have hyle : D.year ≤ (addMonths D (n + 1)).year := by
        unfold addMonths
        simp only
        omega
      apply le_of_lt
      rcases Nat.lt_or_ge D.year (addMonths D (n + 1)).year with hy | hy
      · exact toDays_lt_year h hv2 hy
      · have hyeq : D.year = (addMonths D (n + 1)).year := by omega
        apply toDays_lt_same_year h hv2 hyeq
        unfold monthIndex at hmi
        omega

/-- Closed form for the number of day-10 dates the scan emits between A and
    B inclusive. -/
def tens (A B : CalDate) : ℤ :=
  if toDays A ≤ toDays B then
    (monthIndex B : ℤ) - (monthIndex A : ℤ) + 1
      - (if 10 < A.day then 1 else 0) - (if B.day < 10 then 1 else 0)
  else 0

lemma scanLoop_succ (n : ℕ) (A B : CalDate) :
    scanLoop (n + 1) A B
      = if toDays A ≤ toDays B then
          (if A.day = 10 then [A] else []) ++ scanLoop n (succDate A) B
        else [] := rfl

lemma scanLoop_stopped (A B : CalDate) (h : ¬ toDays A ≤ toDays B) :
    ∀ fuel, scanLoop fuel A B = [] := by
  intro fuel
  cases fuel with
  | zero => rfl
  | succ n => rw [scanLoop_succ, if_neg h]

lemma tens_step {A B : CalDate} (hA : A.Valid) (hlt : toDays A < toDays B) :
    tens A B = (if A.day = 10 then 1 else 0) + tens (succDate A) B := by
  have hsd := toDays_succDate hA
  unfold tens
  rw [if_pos (by omega : toDays A ≤ toDays B),
    if_pos (by omega : toDays (succDate A) ≤ toDays B)]
  obtain ⟨hy, hm1, hm2, hd1, hd2⟩ := hA
  have hb := daysInMonth_bounds A.year A.month
  unfold succDate monthIndex
  by_cases h1 : A.day < daysInMonth A.year A.month
  · rw [if_pos h1]
    simp only
    split_ifs <;> omega
  · rw [if_neg h1]
    by_cases h2 : A.month < 12
    · rw [if_pos h2]
      simp only
      split_ifs <;> push_cast <;> omega
    · rw [if_neg h2]
      have hm : A.month = 12 := by omega
      simp only
      split_ifs <;> push_cast <;> omega

lemma scanLoop_length (B : CalDate) (hB : B.Valid) :
    ∀ (fuel : ℕ) (A : CalDate), A.Valid → toDays B < toDays A + fuel →
      ((scanLoop fuel A B).length : ℤ) = tens A B := by
  intro fuel
  induction fuel with
  | zero =>
      intro A hA hf
      have hn : ¬ toDays A ≤ toDays B := by omega
      simp [scanLoop, tens, hn]
  | succ n ih =>
      intro A hA hf
      by_cases hle : toDays A ≤ toDays B
      · rw [scanLoop_succ, if_pos hle]
        have hsv := valid_succDate hA
        have hsd := toDays_succDate hA
        rcases Nat.lt_or_ge (toDays A) (toDays B) with hlt | hge
        · have ihs := ih (succDate A) hsv (by omega)
          rw [List.length_append, tens_step hA hlt]
          by_cases h10 : A.day = 10 <;> simp [h10, ihs]
        · have heq : toDays A = toDays B := by omega
          have hAB : A = B := toDays_inj hA hB heq
          subst hAB
          rw [scanLoop_stopped (succDate A) A (by omega) n]
          have hd1 : 1 ≤ A.day := hA.2.2.2.1
          unfold tens
          rw [if_pos le_rfl]
          by_cases h10 : A.day = 10 <;> simp [h10] <;> split_ifs <;> omega
      · rw [scanLoop_succ, if_neg hle]
        simp [tens, hle]

lemma scanLoop_mem_ge :
    ∀ (fuel : ℕ) (A B x : CalDate), A.Valid → x ∈ scanLoop fuel A B →
      toDays A ≤ toDays x := by
  intro fuel
  induction fuel with
  | zero => intro A B x _ hx; simp [scanLoop] at hx
  | succ n ih =>
      intro A B x hA hx
      rw [scanLoop_succ] at hx
      by_cases hle : toDays A ≤ toDays B
      · rw [if_pos hle] at hx
        rcases List.mem_append.mp hx with hx1 | hx2
        · by_cases h10 : A.day = 10
          · rw [if_pos h10] at hx1
            simp only [List.mem_singleton] at hx1
            rw [hx1]
          · rw [if_neg h10] at hx1
            simp at hx1
        · have hsd := toDays_succDate hA
          have := ih (succDate A) B x (valid_succDate hA) hx2
          omega
      · rw [if_neg hle] at hx
        simp at hx

lemma scanLoop_pairwise :
    ∀ (fuel : ℕ) (A B : CalDate), A.Valid →
      List.Pairwise (fun u v => toDays u < toDays v) (scanLoop fuel A B) := by
  intro fuel
  induction fuel with
  | zero => intro A B _; simp [scanLoop]
  | succ n ih =>
      intro A B hA
      rw [scanLoop_succ]
      by_cases hle : toDays A ≤ toDays B
      · rw [if_pos hle]
        have hsv := valid_succDate hA
        have hsd := toDays_succDate hA
        by_cases h10 : A.day = 10
        · rw [if_pos h10]
          simp only [List.singleton_append, List.pairwise_cons]
          refine ⟨fun x hx => ?_, ih (succDate A) B hsv⟩
          have := scanLoop_mem_ge n (succDate A) B x hsv hx
          omega
        · rw [if_neg h10]
          simp only [List.nil_append]
          exact ih (succDate A) B hsv
      · rw [if_neg hle]
        simp

/-- C4 (amended): scanning from start + 7.5 days to start + term months +
    7.5 days and emitting the day-10 dates yields an ordered sequence whose
    length is exactly the term length, except when the origination day of
    month is 3 (so the scan begins exactly on a 10th), in which case one
    extra date is emitted. -/
theorem C4_due_date_count_amended (O : CalDate) (T : ℕ) (hO : O.Valid) :
    (list_due_dates (addMonths O 1) (addMonths (addMonths O 1) T)).length
      = T + (if O.day = 3 then 1 else 0) ∧
    List.Pairwise (fun u v => toDays u < toDays v)
      (list_due_dates (addMonths O 1) (addMonths (addMonths O 1) T)) := by
  have hS : (addMonths O 1).Valid := valid_addMonths hO 1
  set S := addMonths O 1 with hSdef
  have hE : (addMonths S T).Valid := valid_addMonths hS T
  have hA : (addDays7 S).Valid := valid_addDays7 hS
  have hB : (addDays7 (addMonths S T)).Valid := valid_addDays7 hE
  have htS := toDays_addDays7 hS
  have htE := toDays_addDays7 hE
  have hle : toDays S ≤ toDays (addMonths S T) := toDays_le_addMonths hS T
  have hfuel : toDays (addDays7 (addMonths S T)) <
      toDays (addDays7 S)
        + (toDays (addDays7 (addMonths S T)) + 1 - toDays (addDays7 S)) := by
    omega
  have hlen := scanLoop_length (addDays7 (addMonths S T)) hB
    (toDays (addDays7 (addMonths S T)) + 1 - toDays (addDays7 S)) (addDays7 S) hA hfuel
  constructor
  · have h1 := addDays7_first_index hS
    have h2 := addDays7_last_index hE
    have h3 := monthIndex_addMonths hS.2.1 (k := T)
    obtain ⟨L, hL, hday⟩ := addMonths_day S T
    obtain ⟨L2, hL2, hday2⟩ := addMonths_day O 1
    have hOd : 1 ≤ O.day := hO.2.2.2.1
    show (scanLoop (toDays (addDays7 (addMonths S T)) + 1 - toDays (addDays7 S))
        (addDays7 S) (addDays7 (addMonths S T))).length = _
    unfold tens at hlen
    rw [if_pos (by omega)] at hlen
    rw [← hSdef] at hday2
    split_ifs at hlen h1 h2 ⊢ <;> omega
  · show List.Pairwise _ (scanLoop (toDays (addDays7 (addMonths S T)) + 1
      - toDays (addDays7 S)) (addDays7 S) (addDays7 (addMonths S T)))
    exact scanLoop_pairwise _ _ _ hA

/-- C4 witness. -/
theorem C4_witness :
    (⟨2024, 1, 1⟩ : CalDate).Valid ∧
    ((list_due_dates (addMonths ⟨2024, 1, 1⟩ 1)
        (addMonths (addMonths ⟨2024, 1, 1⟩ 1) 2)).length
      = 2 + (if (⟨2024, 1, 1⟩ : CalDate).day = 3 then 1 else 0) ∧
    List.Pairwise (fun u v => toDays u < toDays v)
      (list_due_dates (addMonths ⟨2024, 1, 1⟩ 1)
        (addMonths (addMonths ⟨2024, 1, 1⟩ 1) 2))) :=
  ⟨by decide, C4_due_date_count_amended ⟨2024, 1, 1⟩ 2 (by decide)⟩

/-- C4 counterexample: originated 2024-01-03 with a 12 month term, the scan
    begins on 2024-02-10 and also emits 2025-02-10, producing 13 dates
    instead of the claimed 12. -/
theorem C4_counterexample :
    (list_due_dates (addMonths ⟨2024, 1, 3⟩ 1)
        (addMonths (addMonths ⟨2024, 1, 3⟩ 1) 12)).length ≠ 12 := by
  decide
